import Mathlib

/-
Verification of the BitcoinKey native module (src/src/eckey.cc) against its
specification.  The module wraps secp256k1 key pairs and ECDSA sign/verify.

Embedding conventions:
- The wrapper logic (flag checks, argument-length checks, result mapping,
  container swapping) is translated directly from src/src/eckey.cc.
- The underlying curve-arithmetic and codec primitives (OpenSSL: ECDSA_do_sign,
  ECDSA_verify, EC_POINT_mul, BN_bin2bn/BN_bn2bin, i2d/d2i, o2i/i2o) are an
  external trusted library, declared out of scope by the specification.  They
  are modelled from the words of the specification, executably, over a cyclic
  group of prime order n written additively as ZMod n with generator 1, so that
  the scalar multiple d * G of the generator is the residue d itself.  Wire
  codecs are modelled as injective byte encodings with total decoders that
  reject malformed input, standing in for DER / SEC1.
- Byte strings are List Nat with each entry < 256; big-endian order as in
  BN_bin2bn / BN_bn2bin.
-/

namespace ECKey

/-- Big-endian byte-string to natural number, as BN_bin2bn does. -/
def fromBeBytes (bs : List ℕ) : ℕ := bs.foldl (fun acc b => 256 * acc + b) 0

/-- Fixed-width big-endian bytes of a natural number (low byte last). -/
def beBytes : ℕ → ℕ → List ℕ
  | 0, _ => []
  | w + 1, x => beBytes w (x / 256) ++ [x % 256]

/-- Fuel-driven byte-length computation; fuel f is enough whenever d le f. -/
def natBytesAux : ℕ → ℕ → ℕ
  | 0, _ => 0
  | f + 1, d => if d = 0 then 0 else natBytesAux f (d / 256) + 1

/-- Modelled from the spec: BN_num_bytes, the natural byte length of a big
integer (0 for the zero value).  Written with fuel so that it reduces inside
the kernel; fuel d suffices because d / 256 < d for positive d. -/
def natBytes (d : ℕ) : ℕ := natBytesAux d d

/-- Modelled from the spec: BN_bn2bin, the minimal big-endian byte string of a
big integer. -/
def bnBin (d : ℕ) : List ℕ := beBytes (natBytes d) d

theorem beBytes_length (w : ℕ) : ∀ x, (beBytes w x).length = w := by
  induction w with
  | zero => intro x; rfl
  | succ w ih => intro x; simp [beBytes, ih]

theorem beBytes_lt (w : ℕ) : ∀ x, ∀ b ∈ beBytes w x, b < 256 := by
  induction w with
  | zero => intro x b hb; simp [beBytes] at hb
  | succ w ih =>
    intro x b hb
    simp only [beBytes, List.mem_append, List.mem_singleton] at hb
    rcases hb with hb | rfl
    · exact ih _ b hb
    · exact Nat.mod_lt _ (by norm_num)

theorem fromBeBytes_append_one (l : List ℕ) (b : ℕ) :
    fromBeBytes (l ++ [b]) = 256 * fromBeBytes l + b := by
  simp [fromBeBytes, List.foldl_append]

theorem fromBeBytes_beBytes (w : ℕ) : ∀ x, x < 256 ^ w → fromBeBytes (beBytes w x) = x := by
  induction w with
  | zero =>
    intro x hx
    interval_cases x
    rfl
  | succ w ih =>
    intro x hx
    have hdiv : x / 256 < 256 ^ w := by
      rw [Nat.div_lt_iff_lt_mul (by norm_num : 0 < 256)]
      calc x < 256 ^ (w + 1) := hx
        _ = 256 ^ w * 256 := by ring
    rw [beBytes, fromBeBytes_append_one, ih _ hdiv]
    exact Nat.div_add_mod x 256

theorem natBytesAux_zero (f : ℕ) : natBytesAux f 0 = 0 := by
  cases f <;> rfl

theorem natBytesAux_congr : ∀ f g d : ℕ, d ≤ f → d ≤ g → natBytesAux f d = natBytesAux g d := by
  intro f
  induction f with
  | zero =>
    intro g d hf hg
    have : d = 0 := Nat.le_zero.mp hf
    subst this
    rw [natBytesAux_zero, natBytesAux_zero]
  | succ f ih =>
    intro g d hf hg
    rcases Nat.eq_zero_or_pos d with rfl | hd
    · rw [natBytesAux_zero, natBytesAux_zero]
    · obtain ⟨g', rfl⟩ : ∃ g', g = g' + 1 := ⟨g - 1, by omega⟩
      show (if d = 0 then 0 else natBytesAux f (d / 256) + 1)
          = (if d = 0 then 0 else natBytesAux g' (d / 256) + 1)
      rw [if_neg (by omega), if_neg (by omega)]
      have hdiv : d / 256 < d := Nat.div_lt_self hd (by norm_num)
      rw [ih g' (d / 256) (by omega) (by omega)]

theorem natBytes_eq (d : ℕ) : natBytes d = if d = 0 then 0 else natBytes (d / 256) + 1 := by
  rcases Nat.eq_zero_or_pos d with rfl | hd
  · simp [natBytes, natBytesAux_zero]
  · rw [if_neg (by omega)]
    obtain ⟨e, rfl⟩ : ∃ e, d = e + 1 := ⟨d - 1, by omega⟩
    show (if e + 1 = 0 then 0 else natBytesAux e ((e + 1) / 256) + 1)
        = natBytes ((e + 1) / 256) + 1
    rw [if_neg (by omega)]
    unfold natBytes
    have h1 : (e + 1) / 256 ≤ e := by
      have := Nat.div_lt_self (Nat.succ_pos e) (by norm_num : 1 < 256)
      omega
    rw [natBytesAux_congr e ((e + 1) / 256) ((e + 1) / 256) h1 le_rfl]

theorem natBytes_lt_pow (d : ℕ) : d < 256 ^ natBytes d := by
  induction d using Nat.strong_induction_on with
  | _ d ih =>
    rcases Nat.eq_zero_or_pos d with rfl | hd
    · simp [natBytes_eq]
    · rw [natBytes_eq, if_neg (by omega), pow_succ]
      have hdiv : d / 256 < d := Nat.div_lt_self hd (by norm_num)
      have ih' := ih (d / 256) hdiv
      have hup : d < 256 * (d / 256 + 1) := by
        have h1 := Nat.div_add_mod d 256
        have h2 := Nat.mod_lt d (show 0 < 256 by norm_num)
        omega
      calc d < 256 * (d / 256 + 1) := hup
        _ ≤ 256 * 256 ^ natBytes (d / 256) := Nat.mul_le_mul_left 256 ih'
        _ = 256 ^ natBytes (d / 256) * 256 := by ring

theorem bnBin_length (d : ℕ) : (bnBin d).length = natBytes d := beBytes_length _ _

theorem fromBeBytes_bnBin (d : ℕ) : fromBeBytes (bnBin d) = d :=
  fromBeBytes_beBytes _ _ (natBytes_lt_pow d)

/-- Modelled from the spec: the inverse in the scalar field of the group order,
realized by Fermat exponentiation so that it is kernel-computable.  For prime n
and a nonzero this is the multiplicative inverse. -/
def zinv (n : ℕ) (a : ZMod n) : ZMod n := a ^ (n - 2)

/-- Modelled from the spec: an ECDSA signature, a pair of big integers (r, s).
Mirrors the ECDSA_SIG structure of the trusted library. -/
structure ECDSA_SIG (n : ℕ) where
  r : ZMod n
  s : ZMod n
deriving DecidableEq

/-- Modelled from the spec: ECDSA_do_sign of the trusted library over the
secp256k1 group, with the group taken as the cyclic group of prime order n
written additively as ZMod n with generator G = 1 (so the x-coordinate of the
point k * G, reduced mod n, is the residue of k).  The library draws the nonce
internally and retries degenerate nonces; here the nonce is an explicit oracle
argument and a degenerate nonce (r = 0 or s = 0) is the failure (NULL) outcome.
priv is the stored private big integer, z the digest as a big integer. -/
def ecdsa_do_sign (n : ℕ) (priv z nonce : ℕ) : Option (ECDSA_SIG n) :=
  let r : ZMod n := (nonce : ZMod n)
  let s : ZMod n := zinv n (nonce : ZMod n) * ((z : ZMod n) + r * (priv : ZMod n))
  if r = 0 ∨ s = 0 then none else some ⟨r, s⟩

/-- Modelled from the spec: ECDSA_do_verify of the trusted library, three-way
result mapped to Int (1 valid, 0 invalid); range errors on r, s are the
invalid outcome, as in the library.  The check is x(u1 * G + u2 * Q) mod n = r
with u1 = z * w, u2 = r * w, w the inverse of s. -/
def ecdsa_do_verify (n : ℕ) (pub : ZMod n) (z rN sN : ℕ) : Int :=
  if rN = 0 ∨ n ≤ rN ∨ sN = 0 ∨ n ≤ sN then 0
  else
    let w : ZMod n := zinv n (sN : ZMod n)
    if (z : ZMod n) * w + (rN : ZMod n) * w * pub = (rN : ZMod n) then 1 else 0

/-- Width in bytes used by the fixed-width stand-in signature codec: the byte
length of the group order. -/
def byteWidth (n : ℕ) : ℕ := natBytes n

/-- Modelled from the spec: i2d_ECDSA_SIG, the DER encoding of the (r, s)
pair, as an injective fixed-width stand-in encoding. -/
def sigToDER (n : ℕ) (sig : ECDSA_SIG n) : List ℕ :=
  beBytes (byteWidth n) sig.r.val ++ beBytes (byteWidth n) sig.s.val

/-- Modelled from the spec: d2i_ECDSA_SIG, the decoder of the signature wire
format; returns none on malformed input (wrong length or non-byte entries). -/
def sigFromDER (n : ℕ) (bytes : List ℕ) : Option (ℕ × ℕ) :=
  if bytes.length = 2 * byteWidth n ∧ ∀ b ∈ bytes, b < 256 then
    some (fromBeBytes (bytes.take (byteWidth n)), fromBeBytes (bytes.drop (byteWidth n)))
  else none

/-- Modelled from the spec: ECDSA_verify of the trusted library: decode the
DER signature, then ECDSA_do_verify; returns -1 when the signature bytes do
not decode or the key has no public point (parameter error), 0 when the
signature is invalid, 1 when it is valid. -/
def ECDSA_verify (n : ℕ) (pub : Option (ZMod n)) (z : ℕ) (sigDER : List ℕ) : Int :=
  match pub with
  | none => -1
  | some Q =>
    match sigFromDER n sigDER with
    | none => -1
    | some (rN, sN) => ecdsa_do_verify n Q z rN sN

/-- Modelled from the spec: i2o_ECPublicKey, the SEC1 octet encoding of a
point, as a stand-in with the uncompressed marker byte 4 followed by the
fixed-width coordinate encoding. -/
def pointToOct (n : ℕ) (Q : ZMod n) : List ℕ := 4 :: beBytes (byteWidth n) Q.val

/-- Modelled from the spec: o2i_ECPublicKey point decoding; returns none
unless the bytes are a well-formed encoding of a point of the group. -/
def octToPoint (n : ℕ) (bytes : List ℕ) : Option (ZMod n) :=
  match bytes with
  | 4 :: rest =>
    if rest.length = byteWidth n ∧ (∀ b ∈ rest, b < 256) ∧ fromBeBytes rest < n then
      some ((fromBeBytes rest : ZMod n))
    else none
  | _ => none

/-- Modelled from the spec: i2d_ECPrivateKey, the DER encoding of an EC
private key embedding the private scalar and the public point, as an injective
stand-in: byte length of the scalar, its big-endian bytes, then the point. -/
def keyToDER (n : ℕ) (d : ℕ) (Q : ZMod n) : List ℕ :=
  natBytes d :: (bnBin d ++ pointToOct n Q)

/-- Modelled from the spec: d2i_ECPrivateKey decoding; none on malformed
input. -/
def keyFromDER (n : ℕ) (bytes : List ℕ) : Option (ℕ × ZMod n) :=
  match bytes with
  | [] => none
  | len :: rest =>
    if (rest.take len).length = len ∧ ∀ b ∈ rest.take len, b < 256 then
      match octToPoint n (rest.drop len) with
      | some Q => some (fromBeBytes (rest.take len), Q)
      | none => none
    else none

theorem zinv_mul_cancel (n : ℕ) [Fact n.Prime] (a : ZMod n) (h : a ≠ 0) :
    zinv n a * a = 1 := by
  have h2 : 2 ≤ n := (Fact.out : n.Prime).two_le
  have hp : zinv n a * a = a ^ (n - 1) := by
    rw [zinv, ← pow_succ]
    congr 1
    omega
  rw [hp, ZMod.pow_card_sub_one_eq_one h]

theorem sigFromDER_sigToDER (n : ℕ) [NeZero n] (sig : ECDSA_SIG n) :
    sigFromDER n (sigToDER n sig) = some (sig.r.val, sig.s.val) := by
  have hr : (beBytes (byteWidth n) sig.r.val).length = byteWidth n := beBytes_length _ _
  have hs : (beBytes (byteWidth n) sig.s.val).length = byteWidth n := beBytes_length _ _
  have hcond : (sigToDER n sig).length = 2 * byteWidth n ∧ ∀ b ∈ sigToDER n sig, b < 256 := by
    constructor
    · simp [sigToDER, hr, hs, two_mul]
    · intro b hb
      simp only [sigToDER, List.mem_append] at hb
      rcases hb with hb | hb
      · exact beBytes_lt _ _ b hb
      · exact beBytes_lt _ _ b hb
  have hrval : sig.r.val < 256 ^ byteWidth n :=
    lt_trans (ZMod.val_lt sig.r) (natBytes_lt_pow n)
  have hsval : sig.s.val < 256 ^ byteWidth n :=
    lt_trans (ZMod.val_lt sig.s) (natBytes_lt_pow n)
  rw [sigFromDER, if_pos hcond]
  rw [sigToDER, List.take_left' hr, List.drop_left' hr]
  rw [fromBeBytes_beBytes _ _ hrval, fromBeBytes_beBytes _ _ hsval]

theorem octToPoint_pointToOct (n : ℕ) [NeZero n] (Q : ZMod n) :
    octToPoint n (pointToOct n Q) = some Q := by
  have hlen : (beBytes (byteWidth n) Q.val).length = byteWidth n := beBytes_length _ _
  have hval : Q.val < 256 ^ byteWidth n := lt_trans (ZMod.val_lt Q) (natBytes_lt_pow n)
  have hfb : fromBeBytes (beBytes (byteWidth n) Q.val) = Q.val := fromBeBytes_beBytes _ _ hval
  show (if _ then _ else _) = _
  rw [if_pos ⟨hlen, fun b hb => beBytes_lt _ _ b hb, by rw [hfb]; exact ZMod.val_lt Q⟩]
  rw [hfb, ZMod.natCast_rightInverse Q]

theorem keyFromDER_keyToDER (n : ℕ) [NeZero n] (d : ℕ) (Q : ZMod n) :
    keyFromDER n (keyToDER n d Q) = some (d, Q) := by
  have hlen : (bnBin d).length = natBytes d := bnBin_length d
  show (if _ then _ else _) = _
  rw [List.take_left' hlen, List.drop_left' hlen]
  rw [if_pos ⟨hlen, fun b hb => beBytes_lt _ _ b hb⟩]
  rw [octToPoint_pointToOct, fromBeBytes_bnBin]

theorem ecdsa_do_verify_cases (n : ℕ) (pub : ZMod n) (z rN sN : ℕ) :
    ecdsa_do_verify n pub z rN sN = 0 ∨ ecdsa_do_verify n pub z rN sN = 1 := by
  unfold ecdsa_do_verify
  split
  · left; rfl
  · dsimp only
    split
    · right; rfl
    · left; rfl

theorem ECDSA_verify_cases (n : ℕ) (pub : Option (ZMod n)) (z : ℕ) (sigDER : List ℕ) :
    ECDSA_verify n pub z sigDER = -1 ∨ ECDSA_verify n pub z sigDER = 0 ∨
      ECDSA_verify n pub z sigDER = 1 := by
  unfold ECDSA_verify
  match pub with
  | none => left; rfl
  | some Q =>
    match sigFromDER n sigDER with
    | none => left; rfl
    | some (rN, sN) =>
      rcases ecdsa_do_verify_cases n Q z rN sN with h | h
      · right; left; exact h
      · right; right; exact h

/-- Correctness of the modelled primitive: a signature produced by
ecdsa_do_sign on private scalar d verifies against the public point d * G. -/
theorem ecdsa_sign_verify (n : ℕ) [Fact n.Prime] (d z nonce : ℕ) (sig : ECDSA_SIG n)
    (h : ecdsa_do_sign n d z nonce = some sig) :
    ecdsa_do_verify n ((d : ZMod n)) z sig.r.val sig.s.val = 1 := by
  haveI : NeZero n := ⟨(Fact.out : n.Prime).ne_zero⟩
  unfold ecdsa_do_sign at h
  simp only at h
  split at h
  · exact absurd h (by simp)
  · rename_i hcond
    obtain ⟨hk0, hs0⟩ := not_or.mp hcond
    injection h with h2
    subst h2
    set kz : ZMod n := (nonce : ZMod n) with hkz
    set A : ZMod n := (z : ZMod n) + kz * (d : ZMod n) with hA
    set s : ZMod n := zinv n kz * A with hs
    show ecdsa_do_verify n ((d : ZMod n)) z kz.val s.val = 1
    unfold ecdsa_do_verify
    have hneg : ¬(kz.val = 0 ∨ n ≤ kz.val ∨ s.val = 0 ∨ n ≤ s.val) := by
      refine not_or.mpr ⟨?_, not_or.mpr ⟨?_, not_or.mpr ⟨?_, ?_⟩⟩⟩
      · simpa [ZMod.val_eq_zero] using hk0
      · exact not_le.mpr (ZMod.val_lt kz)
      · simpa [ZMod.val_eq_zero] using hs0
      · exact not_le.mpr (ZMod.val_lt s)
    rw [if_neg hneg]
    simp only
    rw [ZMod.natCast_rightInverse kz, ZMod.natCast_rightInverse s]
    rw [if_pos]
    have hik : zinv n kz * kz = 1 := zinv_mul_cancel n kz hk0
    have his : zinv n s * s = 1 := zinv_mul_cancel n s hs0
    have hAs : kz * s = A := by
      rw [hs, ← mul_assoc, mul_comm kz (zinv n kz), hik, one_mul]
    calc (z : ZMod n) * zinv n s + kz * zinv n s * (d : ZMod n)
        = zinv n s * ((z : ZMod n) + kz * (d : ZMod n)) := by ring
      _ = zinv n s * A := by rw [hA]
      _ = zinv n s * (kz * s) := by rw [hAs]
      _ = kz * (zinv n s * s) := by ring
      _ = kz := by rw [his, mul_one]

/-- An EC_KEY container: the optional private big integer and the optional
public point (a NULL BIGNUM or EC_POINT pointer is none). -/
structure EC_KEY (n : ℕ) where
  privKey : Option ℕ
  pubKey : Option (ZMod n)
deriving DecidableEq

/-- The BitcoinKey wrapper object: the EC_KEY container plus the two
material flags (eckey.cc lines 124-133; the constructor binds secp256k1). -/
structure BitcoinKey (n : ℕ) where
  ec : EC_KEY n
  hasPrivate : Bool
  hasPublic : Bool
deriving DecidableEq

/-- A freshly constructed BitcoinKey: empty container, both flags false. -/
def BitcoinKey.new (n : ℕ) : BitcoinKey n := ⟨⟨none, none⟩, false, false⟩

/-- The errors raised through VException in eckey.cc, one constructor per
call site; each comment quotes the message of the source. -/
inductive VErr where
  /-- BitcoinKey does not have a private key set -/
  | noPrivateKeySet
  /-- BitcoinKey does not have a public key set -/
  | noPublicKeySet
  /-- Argument hash must be Buffer of length 32 bytes -/
  | hashMustBe32Bytes
  /-- Error during ECDSA_verify -/
  | errorDuringECDSAVerify
  /-- ECDSA_verify gave undefined return value -/
  | undefinedVerifyReturnValue
  /-- Regeneration requires a private key. -/
  | regenerationRequiresPrivateKey
  /-- Error from d2i_ECPrivateKey -/
  | d2iECPrivateKeyError
deriving DecidableEq

instance instDecidableEqExcept {ε α : Type} [DecidableEq ε] [DecidableEq α] :
    DecidableEq (Except ε α) := fun a b =>
  match a, b with
  | .ok x, .ok y =>
    if h : x = y then .isTrue (congrArg Except.ok h)
    else .isFalse (fun hh => h (Except.ok.inj hh))
  | .error x, .error y =>
    if h : x = y then .isTrue (congrArg Except.error h)
    else .isFalse (fun hh => h (Except.error.inj hh))
  | .ok _, .error _ => .isFalse (fun hh => Except.noConfusion hh)
  | .error _, .ok _ => .isFalse (fun hh => Except.noConfusion hh)

/-- BitcoinKey::SetPrivate (lines 226-238): BN_bin2bn the buffer (big-endian),
EC_KEY_set_private_key, set hasPrivate.  No range check, no error path, and
the public material is untouched. -/
def SetPrivate (n : ℕ) (k : BitcoinKey n) (bytes : List ℕ) : BitcoinKey n :=
  { k with ec := { k.ec with privKey := some (fromBeBytes bytes) }, hasPrivate := true }

/-- BitcoinKey::GetPrivate (lines 186-224).  Returns none (JS Null) when
hasPrivate is unset, when the stored BIGNUM is NULL, and — at the site marked
TODO ERROR Secret too large — when the scalar exceeds 32 bytes.  On the main
path the code writes the scalar at offset 32 - size of a malloc(32) buffer
without zeroing it first, so the left padding is the uninitialized memory
content; garbage is that memory, byte by byte. -/
def GetPrivate (n : ℕ) (garbage : ℕ → ℕ) (k : BitcoinKey n) : Option (List ℕ) :=
  if !k.hasPrivate then none
  else
    match k.ec.privKey with
    | none => none
    | some d =>
      if 32 < natBytes d then none
      else some ((List.range (32 - natBytes d)).map garbage ++ bnBin d)

/-- BitcoinKey::GetPublic (lines 240-269): none when hasPublic is unset or
i2o_ECPublicKey fails (no stored point); otherwise the SEC1 octets. -/
def GetPublic (n : ℕ) (k : BitcoinKey n) : Option (List ℕ) :=
  if !k.hasPublic then none
  else
    match k.ec.pubKey with
    | none => none
    | some Q => some (pointToOct n Q)

/-- BitcoinKey::SetPublic (lines 271-284): o2i_ECPublicKey decodes the buffer
into the container; on failure the code returns silently — the only error
handling is the comment TODO Error — so the second component (the raised
error) is always none.  On success the point is stored and hasPublic set. -/
def SetPublic (n : ℕ) (k : BitcoinKey n) (bytes : List ℕ) : BitcoinKey n × Option VErr :=
  match octToPoint n bytes with
  | none => (k, none)
  | some Q => ({ k with ec := { k.ec with pubKey := some Q }, hasPublic := true }, none)

/-- EC_KEY_regenerate_key (lines 19-53): NULL eckey returns 0; allocation of
the BN_CTX and the EC_POINT and the EC_POINT_mul call can fail (oracles ctxOk,
ptOk, mulOk), in which case nothing is mutated and 0 is returned; on success
the private scalar and the recomputed public point priv * G are both set on
eckey and 1 is returned.  A NULL private scalar (impossible for keys built
through SetPrivate, Generate or FromDER) is folded into the failure path. -/
def EC_KEY_regenerate_key (n : ℕ) (ctxOk ptOk mulOk : Bool) (eckey : Option (EC_KEY n))
    (priv_key : Option ℕ) : Int × Option (EC_KEY n) :=
  match eckey with
  | none => (0, none)
  | some ek =>
    if !ctxOk then (0, some ek)
    else if !ptOk then (0, some ek)
    else
      match priv_key with
      | none => (0, some ek)
      | some d =>
        if !mulOk then (0, some ek)
        else (1, some { ek with privKey := some d, pubKey := some ((d : ZMod n)) })

/-- BitcoinKey::RegenerateSync (lines 286-306): requires hasPrivate, else
VException.  The container is replaced by a freshly allocated one BEFORE
regeneration; EC_KEY_regenerate_key runs on the fresh container with the
private scalar read from the old one; hasPublic is set only when it returns 1;
the old container is freed unconditionally.  The second component counts the
EC_KEY_free calls on the old container. -/
def RegenerateSync (n : ℕ) (ctxOk ptOk mulOk : Bool) (k : BitcoinKey n) :
    Except VErr (BitcoinKey n) × ℕ :=
  if !k.hasPrivate then (.error .regenerationRequiresPrivateKey, 0)
  else
    let res := EC_KEY_regenerate_key n ctxOk ptOk mulOk (some ⟨none, none⟩) k.ec.privKey
    (.ok { k with
            ec := res.2.getD ⟨none, none⟩,
            hasPublic := if res.1 = 1 then true else k.hasPublic },
      1)

/-- BitcoinKey::ToDER (lines 308-337): none (JS Null) unless both flags are
set; i2d_ECPrivateKey of the container (fails, giving Null, if the container
lacks material despite the flags). -/
def ToDER (n : ℕ) (k : BitcoinKey n) : Option (List ℕ) :=
  if !k.hasPrivate || !k.hasPublic then none
  else
    match k.ec.privKey, k.ec.pubKey with
    | some d, some Q => some (keyToDER n d Q)
    | _, _ => none

/-- BitcoinKey::FromDER (lines 339-371): d2i_ECPrivateKey into a new key;
VException on decode failure; on success both flags are set. -/
def FromDER (n : ℕ) (bytes : List ℕ) : Except VErr (BitcoinKey n) :=
  match keyFromDER n bytes with
  | none => .error .d2iECPrivateKeyError
  | some (d, Q) => .ok ⟨⟨some d, some Q⟩, true, true⟩

/-- BitcoinKey::VerifySignature, the int method (lines 66-70): ECDSA_verify of
the container against digest and signature bytes. -/
def VerifySignature (n : ℕ) (k : BitcoinKey n) (z : ℕ) (sigDER : List ℕ) : Int :=
  ECDSA_verify n k.ec.pubKey z sigDER

/-- BitcoinKey::SignSync (lines 511-560): precondition and digest-length
checks, then ECDSA_do_sign and DER export of the signature.  A NULL signature
(TODO ERROR site) falls through to a zero-size DER export and yields Null;
likewise a container without a private scalar. -/
def SignSync (n : ℕ) (k : BitcoinKey n) (hash : List ℕ) (nonce : ℕ) :
    Except VErr (Option (List ℕ)) :=
  if !k.hasPrivate then .error .noPrivateKeySet
  else if hash.length ≠ 32 then .error .hashMustBe32Bytes
  else
    match k.ec.privKey with
    | none => .ok none
    | some d =>
      match ecdsa_do_sign n d (fromBeBytes hash) nonce with
      | none => .ok none
      | some sig => .ok (some (sigToDER n sig))

/-- BitcoinKey::VerifySignatureSync (lines 463-509): precondition and
digest-length checks, then VerifySignature, whose three-way result is mapped
to: -1 raises VException, 0 returns false, 1 returns true, anything else
raises VException. -/
def VerifySignatureSync (n : ℕ) (k : BitcoinKey n) (hash sig : List ℕ) :
    Except VErr Bool :=
  if !k.hasPublic then .error .noPublicKeySet
  else if hash.length ≠ 32 then .error .hashMustBe32Bytes
  else
    let result := VerifySignature n k (fromBeBytes hash) sig
    if result = -1 then .error .errorDuringECDSAVerify
    else if result = 0 then .ok false
    else if result = 1 then .ok true
    else .error .undefinedVerifyReturnValue

/-- The two continuation arguments built by VerifySignatureCallback (lines
421-461): argv 0 is the error (none for Null), argv 1 the boolean result. -/
structure CallbackArgv where
  err : Option VErr
  value : Option Bool
deriving DecidableEq

/-- VerifySignatureCallback result mapping (lines 431-446): -1 delivers a
TypeError, 0 delivers false, 1 delivers true, anything else a TypeError. -/
def VerifySignatureCallbackArgv (result : Int) : CallbackArgv :=
  if result = -1 then ⟨some .errorDuringECDSAVerify, none⟩
  else if result = 0 then ⟨none, some false⟩
  else if result = 1 then ⟨none, some true⟩
  else ⟨some .undefinedVerifyReturnValue, none⟩

/-- BitcoinKey::VerifySignature, the async binding (lines 373-419) together
with EIO_VerifySignature (lines 72-80) and VerifySignatureCallback: after the
same hasPublic and digest-length checks as the sync path (raised
synchronously), the offloaded work computes the same VerifySignature int and
the callback receives the mapped argv.  The ok value is what the completion
continuation is invoked with. -/
def VerifySignatureAsync (n : ℕ) (k : BitcoinKey n) (hash sig : List ℕ) :
    Except VErr CallbackArgv :=
  if !k.hasPublic then .error .noPublicKeySet
  else if hash.length ≠ 32 then .error .hashMustBe32Bytes
  else .ok (VerifySignatureCallbackArgv (VerifySignature n k (fromBeBytes hash) sig))

/-- The three-way verification outcome of the specification. -/
inductive VerifyOutcome where
  | valid
  | invalid
  | indeterminate
deriving DecidableEq

/-- The outcome the synchronous verify returns: true is Valid, false is
Invalid, the raised ECDSA_verify error is Indeterminate; other raised errors
are not verification outcomes. -/
def syncOutcome : Except VErr Bool → Option VerifyOutcome
  | .ok true => some .valid
  | .ok false => some .invalid
  | .error .errorDuringECDSAVerify => some .indeterminate
  | .error _ => none

/-- The outcome the completion continuation receives: value true is Valid,
value false is Invalid, the ECDSA_verify error argument is Indeterminate. -/
def asyncOutcome : Except VErr CallbackArgv → Option VerifyOutcome
  | .ok ⟨none, some true⟩ => some .valid
  | .ok ⟨none, some false⟩ => some .invalid
  | .ok ⟨some .errorDuringECDSAVerify, _⟩ => some .indeterminate
  | .ok _ => none
  | .error _ => none

/-- C1: for every key holding both private and public material (with the
public point matching the private scalar) and every 32-byte digest, verifying
the signature produced by sign on that key and digest returns the Valid
outcome (SignSync produces the DER signature, VerifySignatureSync on it
returns true).  The nonce hypothesis states that the library-internal nonce
draw is non-degenerate, which ECDSA_do_sign guarantees by retrying. -/
theorem C1_sign_then_verify_valid (n : ℕ) [Fact n.Prime] (k : BitcoinKey n) (d : ℕ)
    (hash : List ℕ) (nonce : ℕ) (sig : ECDSA_SIG n)
    (hpriv : k.hasPrivate = true) (hpub : k.hasPublic = true)
    (hkd : k.ec.privKey = some d) (hkQ : k.ec.pubKey = some ((d : ZMod n)))
    (hlen : hash.length = 32)
    (hsig : ecdsa_do_sign n d (fromBeBytes hash) nonce = some sig) :
    SignSync n k hash nonce = .ok (some (sigToDER n sig)) ∧
    VerifySignatureSync n k hash (sigToDER n sig) = .ok true := by
  haveI : NeZero n := ⟨(Fact.out : n.Prime).ne_zero⟩
  constructor
  · simp [SignSync, hpriv, hlen, hkd, hsig]
  · have hv : VerifySignature n k (fromBeBytes hash) (sigToDER n sig) = 1 := by
      simp only [VerifySignature, ECDSA_verify, hkQ, sigFromDER_sigToDER]
      exact ecdsa_sign_verify n d (fromBeBytes hash) nonce sig hsig
    simp [VerifySignatureSync, hpub, hlen, hv]

/-- C1 witness: concrete run with n = 7, scalar 3, public point 3 * G, the
all-zero 32-byte digest and nonce 2. -/
theorem C1_witness :
    SignSync 7 ⟨⟨some 3, some 3⟩, true, true⟩ (List.replicate 32 0) 2 =
      .ok (some (sigToDER 7 ⟨2, 3⟩)) ∧
    VerifySignatureSync 7 ⟨⟨some 3, some 3⟩, true, true⟩ (List.replicate 32 0)
      (sigToDER 7 ⟨2, 3⟩) = .ok true := by
  have h1 : (⟨⟨some 3, some 3⟩, true, true⟩ : BitcoinKey 7).ec.pubKey =
      some ((3 : ℕ) : ZMod 7) := by decide
  have h2 : (List.replicate 32 (0 : ℕ)).length = 32 := by decide
  have h3 : ecdsa_do_sign 7 3 (fromBeBytes (List.replicate 32 0)) 2 = some ⟨2, 3⟩ := by
    decide
  haveI : Fact (Nat.Prime 7) := ⟨by norm_num⟩
  exact C1_sign_then_verify_valid 7 ⟨⟨some 3, some 3⟩, true, true⟩ 3
    (List.replicate 32 0) 2 ⟨2, 3⟩ rfl rfl rfl h1 h2 h3

/-- C2 counterexample: with a public-only key, a 32-byte digest and malformed
signature bytes (the empty buffer), the synchronous verify RAISES the
ECDSA_verify error instead of returning the Indeterminate outcome as a
first-class result value, contradicting the claim as stated. -/
theorem C2_counterexample :
    VerifySignatureSync 7 ⟨⟨none, some 3⟩, false, true⟩ (List.replicate 32 0) [] =
      .error .errorDuringECDSAVerify := by decide

/-- C2 amended: for every key with hasPublic and every 32-byte digest and
signature bytes, verify yields exactly one of three caller-distinguishable
outcomes mirroring the 1 / 0 / -1 of the primitive — result true, result
false, or the ECDSA_verify error — but the Indeterminate (-1) outcome, in
particular for malformed signature bytes, is raised as an error, not delivered
as a first-class result value. -/
theorem C2_amended_three_way (n : ℕ) (k : BitcoinKey n) (hash sig : List ℕ)
    (hpub : k.hasPublic = true) (hlen : hash.length = 32) :
    (VerifySignature n k (fromBeBytes hash) sig = -1 ∧
      VerifySignatureSync n k hash sig = .error .errorDuringECDSAVerify) ∨
    (VerifySignature n k (fromBeBytes hash) sig = 0 ∧
      VerifySignatureSync n k hash sig = .ok false) ∨
    (VerifySignature n k (fromBeBytes hash) sig = 1 ∧
      VerifySignatureSync n k hash sig = .ok true) := by
  rcases ECDSA_verify_cases n k.ec.pubKey (fromBeBytes hash) sig with h | h | h
  · exact Or.inl ⟨by simpa [VerifySignature] using h,
      by simp [VerifySignatureSync, VerifySignature, hpub, hlen, h]⟩
  · exact Or.inr (Or.inl ⟨by simpa [VerifySignature] using h,
      by simp [VerifySignatureSync, VerifySignature, hpub, hlen, h]⟩)
  · exact Or.inr (Or.inr ⟨by simpa [VerifySignature] using h,
      by simp [VerifySignatureSync, VerifySignature, hpub, hlen, h]⟩)

/-- C2 witness: the amended statement at the concrete malformed-signature
input of the counterexample. -/
theorem C2_witness :
    (VerifySignature 7 ⟨⟨none, some 3⟩, false, true⟩ (fromBeBytes (List.replicate 32 0)) [] = -1 ∧
      VerifySignatureSync 7 ⟨⟨none, some 3⟩, false, true⟩ (List.replicate 32 0) [] =
        .error .errorDuringECDSAVerify) ∨
    (VerifySignature 7 ⟨⟨none, some 3⟩, false, true⟩ (fromBeBytes (List.replicate 32 0)) [] = 0 ∧
      VerifySignatureSync 7 ⟨⟨none, some 3⟩, false, true⟩ (List.replicate 32 0) [] = .ok false) ∨
    (VerifySignature 7 ⟨⟨none, some 3⟩, false, true⟩ (fromBeBytes (List.replicate 32 0)) [] = 1 ∧
      VerifySignatureSync 7 ⟨⟨none, some 3⟩, false, true⟩ (List.replicate 32 0) [] = .ok true) :=
  C2_amended_three_way 7 ⟨⟨none, some 3⟩, false, true⟩ (List.replicate 32 0) [] rfl (by decide)

/-- C3: for every key, digest and signature byte string, the asynchronous
verify delivers through its completion continuation exactly the same three-way
outcome (Valid / Invalid / Indeterminate) that the synchronous verify returns
for the same triple. -/
theorem C3_async_sync_equivalence (n : ℕ) (k : BitcoinKey n) (hash sig : List ℕ) :
    asyncOutcome (VerifySignatureAsync n k hash sig) =
      syncOutcome (VerifySignatureSync n k hash sig) := by
  unfold VerifySignatureAsync VerifySignatureSync
  cases hb : k.hasPublic
  · simp [syncOutcome, asyncOutcome]
  · by_cases hl : hash.length = 32
    · simp only [Bool.not_true, Bool.false_eq_true, if_false, hl, ne_eq, not_true_eq_false]
      rcases ECDSA_verify_cases n k.ec.pubKey (fromBeBytes hash) sig with h | h | h <;>
        simp [VerifySignature, h, VerifySignatureCallbackArgv, syncOutcome, asyncOutcome]
    · simp [hl, syncOutcome, asyncOutcome]

/-- C4 counterexample: the claim says the old container is replaced only when
recomputation succeeds and that on failure the previous container, private
scalar included, remains the live state; but on a failing EC_POINT_mul the key
ends with the freshly allocated EMPTY container (the private scalar is gone),
not with its previous container. -/
theorem C4_counterexample :
    (RegenerateSync 7 true true false ⟨⟨some 5, some 2⟩, true, true⟩).1 =
      .ok ⟨⟨none, none⟩, true, true⟩ ∧
    (⟨none, none⟩ : EC_KEY 7) ≠ ⟨some 5, some 2⟩ := by
  constructor <;> decide

/-- C4 amended: for every key with hasPrivate, regenerate always replaces the
container with a freshly allocated one before recomputing; on success the
fresh container holds the private scalar and the recomputed public point and
hasPublic is set; on failure the fresh EMPTY container becomes the live state
(the previous material, private scalar included, is lost) and hasPublic is
unchanged; in every case the old container is released exactly once. -/
theorem C4_amended_regenerate (n : ℕ) (ctxOk ptOk mulOk : Bool) (k : BitcoinKey n) (d : ℕ)
    (hpriv : k.hasPrivate = true) (hkd : k.ec.privKey = some d) :
    (RegenerateSync n ctxOk ptOk mulOk k).2 = 1 ∧
    ((ctxOk && ptOk && mulOk) = true →
      (RegenerateSync n ctxOk ptOk mulOk k).1 =
        .ok { k with ec := ⟨some d, some ((d : ZMod n))⟩, hasPublic := true }) ∧
    ((ctxOk && ptOk && mulOk) = false →
      (RegenerateSync n ctxOk ptOk mulOk k).1 = .ok { k with ec := ⟨none, none⟩ }) := by
  cases ctxOk <;> cases ptOk <;> cases mulOk <;>
    simp [RegenerateSync, EC_KEY_regenerate_key, hpriv, hkd]

/-- C4 witness: the amended statement at a concrete successful regeneration
(n = 7, private scalar 5). -/
theorem C4_witness :
    (RegenerateSync 7 true true true ⟨⟨some 5, some 2⟩, true, false⟩).2 = 1 ∧
    ((true && true && true) = true →
      (RegenerateSync 7 true true true ⟨⟨some 5, some 2⟩, true, false⟩).1 =
        .ok { (⟨⟨some 5, some 2⟩, true, false⟩ : BitcoinKey 7) with
                ec := ⟨some 5, some ((5 : ℕ) : ZMod 7)⟩, hasPublic := true }) ∧
    ((true && true && true) = false →
      (RegenerateSync 7 true true true ⟨⟨some 5, some 2⟩, true, false⟩).1 =
        .ok { (⟨⟨some 5, some 2⟩, true, false⟩ : BitcoinKey 7) with ec := ⟨none, none⟩ }) :=
  C4_amended_regenerate 7 true true true ⟨⟨some 5, some 2⟩, true, false⟩ 5 rfl rfl

/-- C5: the code violates the claim — setPublic on bytes that do not decode to
a valid point returns SILENTLY (the site holds only a TODO Error comment): no
InvalidPointError is raised, with the state left as it was, both on a fully
populated key and on a fresh one. -/
theorem C5_setPublic_silent_on_invalid :
    SetPublic 7 ⟨⟨some 5, some 2⟩, true, true⟩ [] = (⟨⟨some 5, some 2⟩, true, true⟩, none) ∧
    SetPublic 7 (BitcoinKey.new 7) [0, 1] = (BitcoinKey.new 7, none) := by
  constructor <;> decide

/-- C6: for every valid key pair (private scalar in range with matching public
point, both flags set), decoding the DER produced by toDER yields the same
key back, with both hasPrivate and hasPublic true on the decoded key. -/
theorem C6_der_roundtrip (n : ℕ) [NeZero n] (k : BitcoinKey n) (d : ℕ) (Q : ZMod n)
    (hk : k = ⟨⟨some d, some Q⟩, true, true⟩) (_hd0 : 0 < d) (_hdn : d < n)
    (_hQ : Q = ((d : ℕ) : ZMod n)) :
    ∃ der, ToDER n k = some der ∧ FromDER n der = .ok k := by
  subst hk
  exact ⟨keyToDER n d Q, rfl, by simp [FromDER, keyFromDER_keyToDER]⟩

/-- C6 witness: concrete round-trip with n = 7, scalar 3, point 3 * G. -/
theorem C6_witness :
    ∃ der, ToDER 7 ⟨⟨some 3, some 3⟩, true, true⟩ = some der ∧
      FromDER 7 der = .ok ⟨⟨some 3, some 3⟩, true, true⟩ :=
  C6_der_roundtrip 7 ⟨⟨some 3, some 3⟩, true, true⟩ 3 3 rfl (by decide) (by decide) (by decide)

/-- C7: the code violates the claim — when the stored scalar exceeds 32 bytes
(reachable, since setPrivate performs no range check: here setPrivate of the
33-byte buffer 1 followed by 32 zero bytes), getPrivate returns the absent
value (JS Null, the TODO ERROR site), indistinguishable from getPrivate on a
key with no private material, instead of a distinguishable EncodingError. -/
theorem C7_oversize_private_scalar_returns_absent :
    GetPrivate 7 (fun _ => 0) (SetPrivate 7 (BitcoinKey.new 7) (1 :: List.replicate 32 0)) =
      none ∧
    GetPrivate 7 (fun _ => 0) (BitcoinKey.new 7) = none := by
  constructor <;> decide

/-- C8: for every key satisfying the key-material precondition of the
operation and every digest of length other than 32, sign and verify both fail
with the 32-byte-digest VException and produce no signature and no
verification outcome. -/
theorem C8_digest_length_guard (n : ℕ) (k : BitcoinKey n) (hash : List ℕ)
    (hlen : hash.length ≠ 32) :
    (∀ nonce, k.hasPrivate = true → SignSync n k hash nonce = .error .hashMustBe32Bytes) ∧
    (∀ sig, k.hasPublic = true →
      VerifySignatureSync n k hash sig = .error .hashMustBe32Bytes) := by
  constructor
  · intro nonce h
    simp [SignSync, h, hlen]
  · intro sig h
    simp [VerifySignatureSync, h, hlen]

/-- C8 witness: a digest of length 1 (from the listed boundary lengths) on a
key holding both materials. -/
theorem C8_witness :
    SignSync 7 ⟨⟨some 1, some 1⟩, true, true⟩ [0] 1 = .error .hashMustBe32Bytes ∧
    VerifySignatureSync 7 ⟨⟨some 1, some 1⟩, true, true⟩ [0] [] =
      .error .hashMustBe32Bytes := by
  have h := C8_digest_length_guard 7 ⟨⟨some 1, some 1⟩, true, true⟩ [0] (by decide)
  exact ⟨h.1 1 rfl, h.2 [] rfl⟩

/-- C9: setPrivate stores the parsed scalar and sets hasPrivate while leaving
the public material (stored point and hasPublic flag) unchanged; a key
populated only through setPrivate has getPublic return the absent value. -/
theorem C9_setPrivate_leaves_public_alone (n : ℕ) (k : BitcoinKey n) (bytes : List ℕ) :
    (SetPrivate n k bytes).ec.pubKey = k.ec.pubKey ∧
    (SetPrivate n k bytes).hasPublic = k.hasPublic ∧
    (SetPrivate n k bytes).hasPrivate = true ∧
    GetPublic n (SetPrivate n (BitcoinKey.new n) bytes) = none :=
  ⟨rfl, rfl, rfl, rfl⟩

/-- C10: setPrivate is total over arbitrary byte strings — every buffer
(empty, longer than 32 bytes, zero, at or above the group order) is accepted
without any range check, the parsed value is stored and hasPrivate is set. -/
theorem C10_setPrivate_total (n : ℕ) (k : BitcoinKey n) (bytes : List ℕ) :
    (SetPrivate n k bytes).hasPrivate = true ∧
    (SetPrivate n k bytes).ec.privKey = some (fromBeBytes bytes) :=
  ⟨rfl, rfl⟩

end ECKey
